import Mathlib

/-!
Verification development for the ASPAS repository (src/ASPAS.py).

The core of the program is embedded shallowly:
* Python `dict`/`defaultdict` objects are modelled as insertion-ordered
  association lists `List (ℚ × α)`: assignment updates the first matching
  entry in place or appends a fresh one at the end; `del` removes the entry;
  a `defaultdict` read of a missing key appends the default value (this
  mutation is part of the model, see `dget`).
* Python floats are modelled as rational numbers; `round(x, k)` and the
  fixed-precision `f`-string formats are modelled by `roundTo k` (rounding
  to `k` decimal places; exact half-way ties are immaterial here).
* A line file is modelled at whitespace-token granularity: a file is a list
  of lines, each line a list of tokens, matching Python `str.split()`. A
  token is either numeric (`float` succeeds on it) or a word (`float`
  raises). A comment written by `save_lines` appears as a single token,
  which is accurate exactly when the comment has no internal whitespace.
* Exceptions are modelled explicitly: `load_lines` returns the state at the
  point of an uncaught exception, since the method mutates `self` before
  and during parsing.
-/

namespace ASPAS

/-- Association-list lookup, first match wins (Python dict lookup). -/
def alookup {α : Type} (k : ℚ) : List (ℚ × α) → Option α
  | [] => none
  | (k', v) :: t => if k = k' then some v else alookup k t

/-- Python dict assignment `d[k] = v`: update the first matching entry in
place, else append at the end (insertion order preserved). -/
def aset {α : Type} (k : ℚ) (v : α) : List (ℚ × α) → List (ℚ × α)
  | [] => [(k, v)]
  | (k', v') :: t => if k = k' then (k, v) :: t else (k', v') :: aset k v t

/-- Python dict deletion `del d[k]`: remove the entry (callers in this
program only delete present keys, so the missing-key `KeyError` path is
unreachable and modelled as a no-op). -/
def aerase {α : Type} (k : ℚ) : List (ℚ × α) → List (ℚ × α)
  | [] => []
  | (k', v') :: t => if k = k' then t else (k', v') :: aerase k t

/-- `defaultdict` read `d[k]`: returns the stored value, or inserts and
returns the default when the key is missing. Returns the value together
with the possibly-mutated map. -/
def dget {α : Type} (k : ℚ) (default : α) (m : List (ℚ × α)) :
    α × List (ℚ × α) :=
  match alookup k m with
  | some v => (v, m)
  | none => (default, m ++ [(k, default)])

/-- The keys of a map, in insertion order (`list(d.keys())`). -/
def akeys {α : Type} (m : List (ℚ × α)) : List ℚ := m.map Prod.fst

/-- `class Data`: plate calibration plus the two `defaultdict` stores
`emission_lines : {position : intensity}` and
`comments : {position : comment}` (ASPAS.py lines 23-32). -/
structure Data where
  plate_resolution : ℚ
  plate_offset : ℚ
  emission_lines : List (ℚ × ℚ)
  comments : List (ℚ × String)
  deriving DecidableEq, Repr

/-- `Data.__init__`: resolution 2400/25.4 px/mm, offset 0, empty stores. -/
def Data.init : Data :=
  { plate_resolution := 2400 / (25.4 : ℚ)
    plate_offset := 0
    emission_lines := []
    comments := [] }

/-- `Data.add_line`: `self.emission_lines[position] = intensity`. -/
def Data.add_line (d : Data) (position intensity : ℚ) : Data :=
  { d with emission_lines := aset position intensity d.emission_lines }

/-- `Data.add_comment`: `self.comments[position] = comment`. -/
def Data.add_comment (d : Data) (position : ℚ) (comment : String) : Data :=
  { d with comments := aset position comment d.comments }

/-- `Data.remove_line`: `del self.emission_lines[position]`, then the
`defaultdict` read `self.comments[position]` (which inserts "" when the
key is missing), then `del self.comments[position]` only when the comment
read back is nonempty. -/
def Data.remove_line (d : Data) (position : ℚ) : Data :=
  let lines' := aerase position d.emission_lines
  let vc := dget position "" d.comments
  let comments' := if vc.1 ≠ "" then aerase position vc.2 else vc.2
  { d with emission_lines := lines', comments := comments' }

/-- `Data.get_positions`: `list(self.emission_lines.keys())`. -/
def Data.get_positions (d : Data) : List ℚ :=
  akeys d.emission_lines

/-- Rounding to `k` decimal places, modelling Python `round(x, k)` and the
fixed-precision `f`-string formats (exact half-way ties are rounded up
here; Python rounds them to even, a difference immaterial to the claims). -/
def roundTo (k : ℕ) (x : ℚ) : ℚ :=
  (round (x * 10 ^ k) : ℤ) / 10 ^ k

/-- A whitespace-delimited token of a line file: numeric (Python `float`
succeeds) or a plain word (`float` raises `ValueError`). -/
inductive Tok where
  | num (q : ℚ)
  | word (s : String)
  deriving DecidableEq, Repr

/-- Python `float(tok)`: succeeds exactly on numeric tokens. -/
def pyFloat : Tok → Option ℚ
  | Tok.num q => some q
  | Tok.word _ => none

/-- The raw text of a token, as Python sees `line.split()[2]`. -/
def tokStr : Tok → String
  | Tok.num q => toString q
  | Tok.word s => s

/-- The three header lines written by `Data.save_lines` (ASPAS.py lines
54-56): resolution rounded to 3 decimals, offset written verbatim, then the
literal column-header line. -/
def headerLines (d : Data) : List (List Tok) :=
  [ [Tok.word "Plate", Tok.word "Resolution:",
     Tok.num (roundTo 3 d.plate_resolution), Tok.word "px/mm"],
    [Tok.word "Plate", Tok.word "Offset:",
     Tok.num d.plate_offset, Tok.word "mm"],
    [Tok.word "Position", Tok.word "|", Tok.word "Intensity",
     Tok.word "|", Tok.word "Comments"] ]

/-- The row loop of `Data.save_lines` (lines 58-61). For each position, in
sorted order, it performs the `defaultdict` reads
`self.emission_lines[pos]` and `self.comments[pos]` (which may insert
defaults) and writes one row: physical position to 4 decimals, intensity to
3 decimals, then the comment text (an empty comment contributes no token
after `str.split`). Returns the rows plus the post-loop stores. -/
def saveRows (res off : ℚ) :
    List ℚ → List (ℚ × ℚ) → List (ℚ × String) →
    List (List Tok) × List (ℚ × ℚ) × List (ℚ × String)
  | [], lines, cmts => ([], lines, cmts)
  | pos :: rest, lines, cmts =>
    let vl := dget pos 0 lines
    let vc := dget pos "" cmts
    let row := [Tok.num (roundTo 4 (pos / res + off)),
                Tok.num (roundTo 3 vl.1)] ++
               (if vc.1 = "" then [] else [Tok.word vc.1])
    let r := saveRows res off rest vl.2 vc.2
    (row :: r.1, r.2.1, r.2.2)

/-- `Data.save_lines` (lines 51-63): writes the header and one row per
stored position in ascending order. Returns the file (as token lines)
together with the state after the call (the row loop's `defaultdict` reads
can insert default comments). -/
def Data.save_lines (d : Data) : List (List Tok) × Data :=
  let sorted := d.get_positions.mergeSort (fun a b => decide (a ≤ b))
  let r := saveRows d.plate_resolution d.plate_offset sorted
    d.emission_lines d.comments
  (headerLines d ++ r.1,
   { d with emission_lines := r.2.1, comments := r.2.2 })

/-- `lines_file[i].split()[j]`: `none` models the `IndexError`. -/
def tokAt (file : List (List Tok)) (i j : ℕ) : Option Tok :=
  (file.get? i).bind fun line => line.get? j

/-- `float(lines_file[i].split()[j])`: `none` models either the
`IndexError` or the `ValueError` from `float`. -/
def numAt (file : List (List Tok)) (i j : ℕ) : Option ℚ :=
  (tokAt file i j).bind pyFloat

/-- `float(line.split()[j])` for a single row. -/
def rowNum (line : List Tok) (j : ℕ) : Option ℚ :=
  (line.get? j).bind pyFloat

/-- Outcome of `Data.load_lines`: `ok` carries the final state, `err`
carries the state at the point of the uncaught exception (the method
mutates `self` before and during parsing, so that state matters). -/
inductive LoadOutcome where
  | ok (d : Data)
  | err (d : Data)
  deriving DecidableEq, Repr

/-- The row loop of `Data.load_lines` (lines 73-79): for each line,
`p = (float(line.split()[0]) - offset) * resolution`,
`i = float(line.split()[1])`, and the comment token defaults to the empty
string when index 2 is out of range; then both stores are assigned. A row
whose first or second token is missing or non-numeric raises, leaving the
rows parsed so far in place. -/
def loadRows (d : Data) : List (List Tok) → LoadOutcome
  | [] => LoadOutcome.ok d
  | line :: rest =>
    match rowNum line 0, rowNum line 1 with
    | some pphys, some i =>
      let p := (pphys - d.plate_offset) * d.plate_resolution
      let c := match line.get? 2 with
        | some t => tokStr t
        | none => ""
      loadRows { d with
        emission_lines := aset p i d.emission_lines,
        comments := aset p c d.comments } rest
    | _, _ => LoadOutcome.err d

/-- `Data.load_lines` (lines 65-79). The method first replaces both stores
by fresh empty `defaultdict`s, then opens the file (`none` models an
unreadable file), then parses the two calibration scalars from header
tokens `[0][2]` and `[1][2]`, then parses the rows from line 3 onward.
Every failure is an uncaught exception whose surviving state is recorded. -/
def Data.load_lines (d : Data) (file : Option (List (List Tok))) :
    LoadOutcome :=
  let d0 := { d with emission_lines := [], comments := ([] : List (ℚ × String)) }
  match file with
  | none => LoadOutcome.err d0
  | some ls =>
    match numAt ls 0 2 with
    | none => LoadOutcome.err d0
    | some r =>
      let d1 := { d0 with plate_resolution := r }
      match numAt ls 1 2 with
      | none => LoadOutcome.err d1
      | some o =>
        loadRows { d1 with plate_offset := o } (ls.drop 3)

/-- Python `abs` on a float, written out so that the kernel can evaluate
it on rational literals. -/
def pyAbs (x : ℚ) : ℚ := if x < 0 then -x else x

/-- `Comparator.add_line` (lines 347-376), the data-store part. `M` is the
current probe position, `plate_width` the image width, `yM` the value
`self.intensity(self.M)`. The duplicate-check loop assigns the misspelled
variable `alread_in`, so the flag `already_in` that the guard tests is
never set. -/
def comparator_add_line (d : Data) (M plate_width yM : ℚ) : Data :=
  let out_of_bounds : Bool := ! decide (0 < M ∧ M < plate_width)
  let already_in : Bool := false
  let alread_in : Bool :=
    d.get_positions.any fun pos => decide (pyAbs (pos - M) < 1/10)
  if !already_in && !out_of_bounds then d.add_line M yM else d

/-- `Comparator.add_comment` (lines 378-398), the data-store part: for
every stored position within 0.1 of `M`, overwrite its comment with the
entry text; the returned flag is `line` (whether any match was found). -/
def comparator_add_comment (d : Data) (M : ℚ) (text : String) :
    Data × Bool :=
  d.get_positions.foldl
    (fun acc pos =>
      if pyAbs (pos - M) < 1/10 then (acc.1.add_comment pos text, true)
      else acc)
    (d, false)

/-- `Comparator.delete_line` (lines 400-420), the data-store part: for
every position in the snapshot `get_positions()` within 0.1 of `M`, call
`Data.remove_line`; the returned flag is `line`. -/
def comparator_delete_line (d : Data) (M : ℚ) : Data × Bool :=
  d.get_positions.foldl
    (fun acc pos =>
      if pyAbs (pos - M) < 1/10 then (acc.1.remove_line pos, true)
      else acc)
    (d, false)

/-- A decoded image as `np.array(Image.open(f))` sees it: a single-channel
image is an `H × W` grid of values; a multi-channel image is an
`H × W × C` grid (one innermost list per pixel, one entry per channel). -/
inductive Img where
  | gray (rows : List (List ℚ))
  | multi (rows : List (List (List ℚ)))
  deriving DecidableEq, Repr

/-- Arithmetic mean of a list, `np.average`. -/
def mean (l : List ℚ) : ℚ := l.sum / l.length

/-- `np.transpose` on a 2-D array: `result[w][h] = a[h][w]`. -/
def transpose2 (a : List (List ℚ)) : List (List ℚ) :=
  (List.range (a.headD []).length).map fun w => a.map fun r => r.getD w 0

/-- `np.transpose` on a 3-D array reverses all axes:
`result[c][w][h] = a[h][w][c]`. -/
def transpose3 (a : List (List (List ℚ))) : List (List (List ℚ)) :=
  (List.range ((a.headD []).headD []).length).map fun c =>
    (List.range (a.headD []).length).map fun w =>
      a.map fun r => ((r.getD w []).getD c 0)

/-- `Image.open(f).size[0]`: the width the image file declares (for a
rectangular pixel grid, the length of each row). -/
def pilWidth : Img → ℕ
  | Img.gray rows => (rows.headD []).length
  | Img.multi rows => (rows.headD []).length

/-- The sample loop of `Comparator.scan_plate` (lines 260-265):
`256 - np.average(column)` for each element of the transposed array. For a
single-channel image the elements are the image columns; for a
multi-channel image the axis-reversing transpose makes the elements the
channels (each a `W × H` grid), so there is one value per channel. -/
def scan_samples : Img → List ℚ
  | Img.gray rows => (transpose2 rows).map fun col => 256 - mean col
  | Img.multi rows => (transpose3 rows).map fun ch => 256 - mean ch.flatten

/-- Failure modes of `Comparator.scan_plate`: `imageLoadError` models the
PIL exception from an undecodable file; the other two model the checks
`scipy.interpolate.interp1d` performs on its arguments (equal lengths of
`x` and `y`, and at least 4 points for a cubic spline). -/
inductive ScanErr where
  | imageLoadError
  | lengthMismatch
  | tooFewPoints
  deriving DecidableEq, Repr

/-- The extractor's output: the image width and the per-column samples
from which the interpolant is built. -/
structure PlateSignal where
  width : ℕ
  samples : List ℚ
  deriving DecidableEq, Repr

/-- `Comparator.scan_plate` (lines 258-268), together with the
`Image.open` decode step: `none` models an undecodable file. The sample
list is computed from the transposed array, then
`interp1d(range(self.plate_width), intensity, kind=cubic)` is attempted,
which raises unless the lengths agree and there are at least 4 samples
(`self.plate_width` was set by `load_plate` from the same file's declared
width). -/
def scan_plate (file : Option Img) : Except ScanErr PlateSignal :=
  match file with
  | none => Except.error ScanErr.imageLoadError
  | some img =>
    let W := pilWidth img
    let samples := scan_samples img
    if samples.length ≠ W then Except.error ScanErr.lengthMismatch
    else if W < 4 then Except.error ScanErr.tooFewPoints
    else Except.ok { width := W, samples := samples }

/-- Forward sweep of the Thomas algorithm for the tridiagonal system with
sub- and super-diagonal 1 and diagonal 4 that determines the interior
second derivatives of a natural cubic spline on unit-spaced nodes. -/
def thomasFwd : List ℚ → ℚ → ℚ → List (ℚ × ℚ)
  | [], _, _ => []
  | rhs :: rest, cp, dp =>
    let denom := 4 - cp
    let c' := 1 / denom
    let d' := (rhs - dp) / denom
    (c', d') :: thomasFwd rest c' d'

/-- Back substitution of the Thomas algorithm (input reversed). -/
def thomasBwd : List (ℚ × ℚ) → ℚ → List ℚ
  | [], _ => []
  | cd :: rest, xnext =>
    let x := cd.2 - cd.1 * xnext
    x :: thomasBwd rest x

/-- Second-derivative vector of the natural cubic spline through
`(i, ys[i])`: zero at both ends, interior values solving
`M[k] + 4*M[k+1] + M[k+2] = 6*(ys[k] - 2*ys[k+1] + ys[k+2])`. -/
def naturalSplineM (ys : List ℚ) : List ℚ :=
  if ys.length < 3 then List.replicate ys.length 0
  else
    let rhs := (List.range (ys.length - 2)).map fun k =>
      6 * (ys.getD k 0 - 2 * ys.getD (k + 1) 0 + ys.getD (k + 2) 0)
    let sol := (thomasBwd (thomasFwd rhs 0 0).reverse 0).reverse
    0 :: sol ++ [0]

/-- Modelled from the spec: the continuous intensity function
`interp1d(range(W), samples, kind=cubic)` is built by scipy (external
library code, not part of this repository); the spec describes it as cubic
interpolation over the integer column indices. It is modelled as the
classical cubic spline on unit-spaced nodes in second-derivative form,
with natural boundary conditions supplying the second derivatives. On the
segment `[i, i+1]` the spline is
`M[i]*(i+1-x)^3/6 + M[i+1]*(x-i)^3/6 + (ys[i]-M[i]/6)*(i+1-x) +
(ys[i+1]-M[i+1]/6)*(x-i)`, which passes through the nodes for every choice
of `M`, so the boundary-condition choice does not affect the
interpolation identity. `splineSeg` is that segment formula, and
`cubicSplineEval` selects the segment containing `x` (clamped to the node
range, matching extrapolation by the end segments). -/
def splineSeg (ys M : List ℚ) (i : ℕ) (x : ℚ) : ℚ :=
  M.getD i 0 * ((i : ℚ) + 1 - x) ^ 3 / 6 +
    M.getD (i + 1) 0 * (x - (i : ℚ)) ^ 3 / 6 +
    (ys.getD i 0 - M.getD i 0 / 6) * ((i : ℚ) + 1 - x) +
    (ys.getD (i + 1) 0 - M.getD (i + 1) 0 / 6) * (x - (i : ℚ))

def cubicSplineEval (ys : List ℚ) (x : ℚ) : ℚ :=
  match ys with
  | [] => 0
  | [y] => y
  | y0 :: y1 :: rest =>
    splineSeg (y0 :: y1 :: rest) (naturalSplineM (y0 :: y1 :: rest))
      (min (max (⌊x⌋ : ℤ) 0).toNat ((y0 :: y1 :: rest).length - 2)) x

/-! ### Association-list lemmas (Python dict semantics) -/

theorem pyAbs_eq_abs (x : ℚ) : pyAbs x = |x| := by
  unfold pyAbs
  rcases le_or_lt 0 x with h | h
  · rw [if_neg (not_lt.mpr h), abs_of_nonneg h]
  · rw [if_pos h, abs_of_neg h]

theorem alookup_eq_none {α : Type} {k : ℚ} {m : List (ℚ × α)} :
    alookup k m = none ↔ k ∉ akeys m := by
  induction m with
  | nil => simp [alookup, akeys]
  | cons e t ih =>
    by_cases h : k = e.1
    · subst h; simp [alookup, akeys]
    · simp [alookup, akeys, h, ih]

theorem alookup_isSome {α : Type} {k : ℚ} {m : List (ℚ × α)}
    (h : k ∈ akeys m) : ∃ v, alookup k m = some v := by
  rcases he : alookup k m with _ | v
  · exact absurd (alookup_eq_none.mp he) (by simp [h])
  · exact ⟨v, rfl⟩

theorem alookup_aset_self {α : Type} (k : ℚ) (v : α) (m : List (ℚ × α)) :
    alookup k (aset k v m) = some v := by
  induction m with
  | nil => simp [aset, alookup]
  | cons e t ih =>
    by_cases h : k = e.1
    · simp [aset, alookup, h]
    · simp [aset, alookup, h, ih]

theorem alookup_aset_ne {α : Type} {k k' : ℚ} (v : α) (m : List (ℚ × α))
    (h : k ≠ k') : alookup k (aset k' v m) = alookup k m := by
  induction m with
  | nil => simp [aset, alookup, h]
  | cons e t ih =>
    by_cases h' : k' = e.1
    · subst h'; simp [aset, alookup, h]
    · by_cases h'' : k = e.1 <;> simp [aset, alookup, h', h'', ih]

theorem aset_eq_append {α : Type} {k : ℚ} (v : α) {m : List (ℚ × α)}
    (h : alookup k m = none) : aset k v m = m ++ [(k, v)] := by
  induction m with
  | nil => simp [aset]
  | cons e t ih =>
    by_cases h' : k = e.1
    · subst h'; simp [alookup] at h
    · simp [alookup, h'] at h
      simp [aset, h', ih h]

theorem aerase_sublist {α : Type} (k : ℚ) (m : List (ℚ × α)) :
    (aerase k m).Sublist m := by
  induction m with
  | nil => simp [aerase]
  | cons e t ih =>
    by_cases h : k = e.1
    · simp [aerase, h]
    · simpa [aerase, h] using ih

theorem alookup_aerase_ne {α : Type} {k k' : ℚ} (m : List (ℚ × α))
    (h : k ≠ k') : alookup k (aerase k' m) = alookup k m := by
  induction m with
  | nil => simp [aerase]
  | cons e t ih =>
    by_cases h' : k' = e.1
    · subst h'; simp [aerase, alookup, h]
    · by_cases h'' : k = e.1 <;> simp [aerase, alookup, h', h'', ih]

theorem aerase_eq_filter {α : Type} (k : ℚ) {m : List (ℚ × α)}
    (hnd : (akeys m).Nodup) :
    aerase k m = m.filter fun e => ! decide (e.1 = k) := by
  induction m with
  | nil => simp [aerase]
  | cons e t ih =>
    simp only [akeys, List.map_cons, List.nodup_cons] at hnd
    by_cases h : k = e.1
    · subst h
      have : ∀ e' ∈ t, (! decide (e'.1 = e.1)) = true := by
        intro e' he'
        simp only [Bool.not_eq_true', decide_eq_false_iff_not]
        intro hk
        exact hnd.1 (hk ▸ List.mem_map_of_mem Prod.fst he')
      simp [aerase, List.filter_cons, List.filter_eq_self.mpr this]
    · simp [aerase, h, List.filter_cons, Ne.symm h, ih hnd.2]

theorem alookup_aerase_self {α : Type} (k : ℚ) {m : List (ℚ × α)}
    (hnd : (akeys m).Nodup) : alookup k (aerase k m) = none := by
  rw [aerase_eq_filter k hnd, alookup_eq_none]
  intro hmem
  rcases List.mem_map.mp hmem with ⟨e, he, hk⟩
  rcases List.mem_filter.mp he with ⟨_, hdec⟩
  simp [hk] at hdec

theorem akeys_nodup_aerase {α : Type} (k : ℚ) {m : List (ℚ × α)}
    (hnd : (akeys m).Nodup) : (akeys (aerase k m)).Nodup :=
  ((aerase_sublist k m).map Prod.fst).nodup hnd

theorem alookup_append_ne {α : Type} {k k' : ℚ} (v : α) (m : List (ℚ × α))
    (h : k ≠ k') : alookup k (m ++ [(k', v)]) = alookup k m := by
  induction m with
  | nil => simp [alookup, h]
  | cons e t ih =>
    by_cases h' : k = e.1 <;> simp [alookup, h', ih]

theorem alookup_append_self {α : Type} {k : ℚ} (v : α) {m : List (ℚ × α)}
    (h : alookup k m = none) : alookup k (m ++ [(k, v)]) = some v := by
  induction m with
  | nil => simp [alookup]
  | cons e t ih =>
    by_cases h' : k = e.1
    · subst h'; simp [alookup] at h
    · simp [alookup, h'] at h ⊢
      exact ih h

/-! ### Spline segment lemmas -/

theorem splineSeg_left (ys M : List ℚ) (i : ℕ) :
    splineSeg ys M i ((i : ℚ)) = ys.getD i 0 := by
  unfold splineSeg; ring

theorem splineSeg_right (ys M : List ℚ) (i : ℕ) :
    splineSeg ys M i ((i : ℚ) + 1) = ys.getD (i + 1) 0 := by
  unfold splineSeg; ring

theorem cubicSplineEval_node (ys : List ℚ) (j : ℕ) (hj : j < ys.length) :
    cubicSplineEval ys (j : ℚ) = ys.getD j 0 := by
  match ys with
  | [] => simp at hj
  | [y] =>
    have h0 : j = 0 := by simp at hj; omega
    subst h0
    simp [cubicSplineEval]
  | y0 :: y1 :: rest =>
    have hfl : ⌊((j : ℚ))⌋ = (j : ℤ) := Int.floor_natCast j
    have hmax : max ((j : ℤ)) 0 = (j : ℤ) := max_eq_left (Int.natCast_nonneg j)
    have htn : ((j : ℤ)).toNat = j := Int.toNat_natCast j
    have hlen : (y0 :: y1 :: rest).length = rest.length + 2 := by simp
    have hjn : j < rest.length + 2 := by omega
    simp only [cubicSplineEval, hfl, hmax, htn, hlen]
    by_cases hj2 : j ≤ rest.length + 2 - 2
    · rw [min_eq_left hj2]
      exact splineSeg_left _ _ j
    · rw [min_eq_right (by omega)]
      have hx : ((j : ℚ)) = ((rest.length + 2 - 2 : ℕ) : ℚ) + 1 := by
        have : j = (rest.length + 2 - 2) + 1 := by omega
        rw [this]; push_cast; ring
      rw [hx, splineSeg_right]
      have hj1 : rest.length + 2 - 2 + 1 = j := by omega
      rw [hj1]

/-! ### Claim theorems -/

/-- Claim C9: for every image for which the intensity function is built,
the cubic interpolant passes through every sample point:
`intensity(i) = samples[i]` for every integer column index `i`. -/
theorem aspas_c9_interpolation_identity (file : Option Img)
    (s : PlateSignal) (h : scan_plate file = Except.ok s) (i : ℕ)
    (hi : i < s.samples.length) :
    cubicSplineEval s.samples (i : ℚ) = s.samples.getD i 0 :=
  cubicSplineEval_node s.samples i hi

theorem aspas_c9_witness :
    scan_plate (some (Img.gray [[1, 2, 3, 4]])) =
      Except.ok { width := 4, samples := [255, 254, 253, 252] } ∧
    cubicSplineEval [255, 254, 253, 252] ((2 : ℕ) : ℚ) =
      List.getD [255, 254, 253, 252] 2 0 :=
  ⟨by simp [scan_plate, scan_samples, transpose2, pilWidth, mean,
      List.range_succ]; norm_num,
   aspas_c9_interpolation_identity (some (Img.gray [[1, 2, 3, 4]]))
     { width := 4, samples := [255, 254, 253, 252] }
     (by simp [scan_plate, scan_samples, transpose2, pilWidth, mean,
        List.range_succ]; norm_num) 2
     (by decide)⟩

/-- Claim C8: the extractor fails on an undecodable file and on a
zero-width image (the latter through the too-few-points check of the
interpolant constructor); it returns no `PlateSignal` in either case. -/
theorem aspas_c8_failure_conditions :
    scan_plate none = Except.error ScanErr.imageLoadError ∧
    ∀ img : Img, pilWidth img = 0 →
      scan_plate (some img) = Except.error ScanErr.tooFewPoints := by
  refine ⟨rfl, ?_⟩
  intro img h
  cases img with
  | gray rows =>
    simp only [pilWidth, List.headD_eq_head?] at h
    simp [scan_plate, scan_samples, transpose2, pilWidth, h]
  | multi rows =>
    simp only [pilWidth, List.headD_eq_head?] at h
    have h0 : rows.head?.getD [] = [] := List.length_eq_zero.mp h
    simp [scan_plate, scan_samples, transpose3, pilWidth, h, h0]

theorem aspas_c8_witness :
    pilWidth (Img.gray [[]]) = 0 ∧
    scan_plate (some (Img.gray [[]])) =
      Except.error ScanErr.tooFewPoints :=
  ⟨by decide, aspas_c8_failure_conditions.2 (Img.gray [[]]) (by decide)⟩

/-- Claim C10: the stores are fallback-on-missing-key containers: a read
of a missing key inserts the default (0 intensity, empty comment); and
`remove_line` on a stored position whose comment is empty or absent
deletes the line entry but leaves an empty-string comment entry behind. -/
theorem aspas_c10_defaultdict_insertion :
    (∀ (m : List (ℚ × ℚ)) (k : ℚ), alookup k m = none →
      dget k (0 : ℚ) m = (0, m ++ [(k, 0)])) ∧
    (∀ (m : List (ℚ × String)) (k : ℚ), alookup k m = none →
      dget k "" m = ("", m ++ [(k, "")])) ∧
    (∀ (d : Data) (q : ℚ), (akeys d.emission_lines).Nodup →
      q ∈ akeys d.emission_lines →
      (alookup q d.comments = none ∨ alookup q d.comments = some "") →
      alookup q (d.remove_line q).emission_lines = none ∧
      alookup q (d.remove_line q).comments = some "") := by
  refine ⟨?_, ?_, ?_⟩
  · intro m k h; simp [dget, h]
  · intro m k h; simp [dget, h]
  · intro d q hnd hq hc
    constructor
    · have h1 : (d.remove_line q).emission_lines =
          aerase q d.emission_lines := by
        simp [Data.remove_line]
      rw [h1]
      exact alookup_aerase_self q hnd
    · rcases hc with hc | hc
      · simp [Data.remove_line, dget, hc]
        exact alookup_append_self "" hc
      · simp [Data.remove_line, dget, hc]

theorem aspas_c10_witness :
    (akeys ([(5, 2)] : List (ℚ × ℚ))).Nodup ∧
    (5 : ℚ) ∈ akeys ([(5, 2)] : List (ℚ × ℚ)) ∧
    alookup 5 (Data.remove_line
      { plate_resolution := 100, plate_offset := 0,
        emission_lines := [(5, 2)], comments := [] } 5).emission_lines
      = none ∧
    alookup 5 (Data.remove_line
      { plate_resolution := 100, plate_offset := 0,
        emission_lines := [(5, 2)], comments := [] } 5).comments
      = some "" := by
  refine ⟨by decide, by decide, ?_, ?_⟩
  · exact (aspas_c10_defaultdict_insertion.2.2
      { plate_resolution := 100, plate_offset := 0,
        emission_lines := [(5, 2)], comments := [] } 5
      (by decide) (by decide) (Or.inl (by decide))).1
  · exact (aspas_c10_defaultdict_insertion.2.2
      { plate_resolution := 100, plate_offset := 0,
        emission_lines := [(5, 2)], comments := [] } 5
      (by decide) (by decide) (Or.inl (by decide))).2

/-- Claim C1 (code bug): with the store holding position 5 and the probe
at 5.05 (within 0.1 and in bounds), `Comparator.add_line` inserts a second
entry: the duplicate-check loop assigns the misspelled `alread_in`, so the
tested flag `already_in` is never set and the guard never fires. -/
theorem aspas_c1_bug_eval :
    |(5 : ℚ) - 101 / 20| < 1 / 10 ∧
    ((0 : ℚ) < 101 / 20 ∧ (101 / 20 : ℚ) < 100) ∧
    (comparator_add_line
        { plate_resolution := 2400 / (25.4 : ℚ), plate_offset := 0,
          emission_lines := [(5, 2)], comments := [] }
        (101 / 20) 100 7).emission_lines = [(5, 2), (101 / 20, 7)] := by
  refine ⟨by rw [abs_sub_lt_iff]; constructor <;> norm_num,
    ⟨by norm_num, by norm_num⟩, ?_⟩
  norm_num [comparator_add_line, Data.add_line, Data.get_positions, akeys,
    aset, pyAbs]

/-- Claim C6 counterexample: position 6 is not among the stored keys, yet
`Data.add_comment` at 6 succeeds and silently inserts a comment entry —
there is no error path at all. -/
theorem aspas_c6_counterexample :
    alookup 6
        (Data.emission_lines
          { plate_resolution := (100 : ℚ), plate_offset := 0,
            emission_lines := [(5, 1)], comments := [] }) = none ∧
    Data.add_comment
        { plate_resolution := (100 : ℚ), plate_offset := 0,
          emission_lines := [(5, 1)], comments := [] } 6 "x" =
      { plate_resolution := (100 : ℚ), plate_offset := 0,
        emission_lines := [(5, 1)], comments := [(6, "x")] } := by
  constructor
  · norm_num [alookup]
  · norm_num [Data.add_comment, aset]

/-! ### Fold lemmas for the comment loop of `Comparator.add_comment` -/

theorem addc_fold_lines (M : ℚ) (t : String) (ps : List ℚ) :
    ∀ acc : Data × Bool,
      ((ps.foldl (fun acc pos =>
          if pyAbs (pos - M) < 1/10 then (acc.1.add_comment pos t, true)
          else acc) acc).1).emission_lines = acc.1.emission_lines := by
  induction ps with
  | nil => intro acc; rfl
  | cons p rest ih =>
    intro acc
    rw [List.foldl_cons]
    by_cases h : pyAbs (p - M) < 1/10
    · rw [if_pos h, ih]; rfl
    · rw [if_neg h]; exact ih acc

theorem addc_fold_comments_ne (M : ℚ) (t : String) (q : ℚ) (ps : List ℚ)
    (hq : ∀ p ∈ ps, p ≠ q) :
    ∀ acc : Data × Bool,
      alookup q ((ps.foldl (fun acc pos =>
          if pyAbs (pos - M) < 1/10 then (acc.1.add_comment pos t, true)
          else acc) acc).1).comments = alookup q acc.1.comments := by
  induction ps with
  | nil => intro acc; rfl
  | cons p rest ih =>
    intro acc
    have hp : p ≠ q := hq p (List.mem_cons_self p rest)
    have hrest : ∀ p' ∈ rest, p' ≠ q := fun p' h' =>
      hq p' (List.mem_cons_of_mem p h')
    rw [List.foldl_cons]
    by_cases h : pyAbs (p - M) < 1/10
    · rw [if_pos h, ih hrest]
      exact alookup_aset_ne t _ (Ne.symm hp)
    · rw [if_neg h]
      exact ih hrest acc

theorem addc_fold_mem (M : ℚ) (t : String) (q : ℚ)
    (hnear : pyAbs (q - M) < 1/10) :
    ∀ (ps : List ℚ) (acc : Data × Bool), q ∈ ps →
      alookup q ((ps.foldl (fun acc pos =>
          if pyAbs (pos - M) < 1/10 then (acc.1.add_comment pos t, true)
          else acc) acc).1).comments = some t := by
  intro ps
  induction ps with
  | nil => intro acc hq; simp at hq
  | cons p rest ih =>
    intro acc hq
    rw [List.foldl_cons]
    by_cases hmem : q ∈ rest
    · exact ih _ hmem
    · have hpq : q = p := by
        rcases List.mem_cons.mp hq with h | h
        · exact h
        · exact absurd h hmem
      subst hpq
      rw [if_pos hnear]
      have hrest : ∀ p' ∈ rest, p' ≠ q := fun p' h' heq =>
        hmem (heq ▸ h')
      rw [addc_fold_comments_ne M t q rest hrest]
      exact alookup_aset_self q t acc.1.comments

theorem addc_fold_noop (M : ℚ) (t : String) (ps : List ℚ)
    (h : ∀ p ∈ ps, ¬ pyAbs (p - M) < 1/10) (d : Data) :
    ps.foldl (fun acc pos =>
        if pyAbs (pos - M) < 1/10 then (acc.1.add_comment pos t, true)
        else acc) (d, false) = (d, false) := by
  induction ps with
  | nil => rfl
  | cons p rest ih =>
    rw [List.foldl_cons,
      if_neg (h p (List.mem_cons_self p rest))]
    exact ih fun p' h' => h p' (List.mem_cons_of_mem p h')

/-- Claim C6, amended behavior of the comment operations:
`Data.add_comment` never fails — it always sets `comments[p]` (a silent
insertion when `p` is not a stored key) and leaves the lines unchanged;
the error signalling lives only in the `Comparator` wrapper, which
mutates nothing and reports failure exactly when no stored position is
within 0.1 of the probe, and otherwise overwrites the comment at every
stored position within 0.1 (at those exact keys, not at the probe). -/
theorem aspas_c6_amended :
    (∀ (d : Data) (p : ℚ) (t : String),
      (d.add_comment p t).emission_lines = d.emission_lines ∧
      alookup p (d.add_comment p t).comments = some t) ∧
    (∀ (d : Data) (M : ℚ) (t : String),
      (∀ q ∈ d.get_positions, ¬ |q - M| < 1/10) →
      comparator_add_comment d M t = (d, false)) ∧
    (∀ (d : Data) (M : ℚ) (t : String) (q : ℚ),
      q ∈ d.get_positions → |q - M| < 1/10 →
      (comparator_add_comment d M t).1.emission_lines =
        d.emission_lines ∧
      alookup q (comparator_add_comment d M t).1.comments = some t) := by
  refine ⟨?_, ?_, ?_⟩
  · intro d p t
    exact ⟨rfl, alookup_aset_self p t d.comments⟩
  · intro d M t h
    apply addc_fold_noop
    intro p hp
    rw [pyAbs_eq_abs]
    exact h p hp
  · intro d M t q hq hnear
    rw [← pyAbs_eq_abs] at hnear
    exact ⟨addc_fold_lines M t d.get_positions (d, false),
      addc_fold_mem M t q hnear d.get_positions (d, false) hq⟩

theorem aspas_c6_amended_witness :
    ((5 : ℚ) ∈ Data.get_positions
      { plate_resolution := (100 : ℚ), plate_offset := 0,
        emission_lines := [(5, 1)], comments := [] } ∧
     |(5 : ℚ) - 101/20| < 1/10) ∧
    (comparator_add_comment
        { plate_resolution := (100 : ℚ), plate_offset := 0,
          emission_lines := [(5, 1)], comments := [] }
        (101/20) "hello").1.emission_lines = [(5, 1)] ∧
    alookup 5 (comparator_add_comment
        { plate_resolution := (100 : ℚ), plate_offset := 0,
          emission_lines := [(5, 1)], comments := [] }
        (101/20) "hello").1.comments = some "hello" :=
  ⟨⟨by simp [Data.get_positions, akeys],
    by rw [abs_sub_lt_iff]; constructor <;> norm_num⟩,
   aspas_c6_amended.2.2
     { plate_resolution := (100 : ℚ), plate_offset := 0,
       emission_lines := [(5, 1)], comments := [] }
     (101/20) "hello" 5
     (by simp [Data.get_positions, akeys])
     (by rw [abs_sub_lt_iff]; constructor <;> norm_num)⟩

/-! ### Fold lemmas for the deletion loop of `Comparator.delete_line` -/

theorem dl_fold_lines (M : ℚ) (ps : List ℚ) :
    ∀ acc : Data × Bool,
      ((ps.foldl (fun acc pos =>
          if pyAbs (pos - M) < 1/10 then (acc.1.remove_line pos, true)
          else acc) acc).1).emission_lines =
        ps.foldl (fun L pos =>
          if pyAbs (pos - M) < 1/10 then aerase pos L else L)
          acc.1.emission_lines := by
  induction ps with
  | nil => intro acc; rfl
  | cons p rest ih =>
    intro acc
    rw [List.foldl_cons, List.foldl_cons]
    by_cases h : pyAbs (p - M) < 1/10
    · rw [if_pos h, if_pos h, ih]; rfl
    · rw [if_neg h, if_neg h]
      exact ih acc

theorem foldl_aerase_near (M : ℚ) (ps : List ℚ) :
    ∀ L : List (ℚ × ℚ), (akeys L).Nodup →
      ps.foldl (fun L pos =>
          if pyAbs (pos - M) < 1/10 then aerase pos L else L) L =
        L.filter fun e =>
          ! ps.any fun pos =>
            decide (pyAbs (pos - M) < 1/10) && decide (e.1 = pos) := by
  induction ps with
  | nil => intro L _; simp
  | cons p rest ih =>
    intro L hnd
    rw [List.foldl_cons]
    have hstep : (if pyAbs (p - M) < 1/10 then aerase p L else L) =
        L.filter fun e =>
          ! (decide (pyAbs (p - M) < 1/10) && decide (e.1 = p)) := by
      by_cases h : pyAbs (p - M) < 1/10
      · rw [if_pos h, aerase_eq_filter p hnd]
        apply List.filter_congr
        intro e _
        rw [decide_eq_true h, Bool.true_and]
      · rw [if_neg h]
        have hall : ∀ e ∈ L,
            (! (decide (pyAbs (p - M) < 1/10) && decide (e.1 = p))) =
              true := by
          intro e _
          rw [decide_eq_false h]
          rfl
        rw [List.filter_congr hall, List.filter_true]
    have hnd' : (akeys (L.filter fun e =>
        ! (decide (pyAbs (p - M) < 1/10) && decide (e.1 = p)))).Nodup :=
      ((List.filter_sublist L).map Prod.fst).nodup hnd
    rw [hstep, ih _ hnd', List.filter_filter]
    apply List.filter_congr
    intro e _
    simp only [List.any_cons, Bool.not_or]
    rw [Bool.and_comm]

theorem dl_lines_filter (d : Data) (M : ℚ)
    (hl : (akeys d.emission_lines).Nodup) :
    (comparator_delete_line d M).1.emission_lines =
      d.emission_lines.filter fun e =>
        ! decide (pyAbs (e.1 - M) < 1/10) := by
  show ((d.get_positions.foldl _ (d, false)).1).emission_lines = _
  rw [dl_fold_lines, foldl_aerase_near M d.get_positions _ hl]
  apply List.filter_congr
  intro e he
  have hany : (d.get_positions.any fun pos =>
      decide (pyAbs (pos - M) < 1/10) && decide (e.1 = pos)) =
        decide (pyAbs (e.1 - M) < 1/10) := by
    by_cases hnear : pyAbs (e.1 - M) < 1/10
    · rw [decide_eq_true hnear]
      refine List.any_eq_true.mpr ⟨e.1, ?_, ?_⟩
      · exact List.mem_map_of_mem Prod.fst he
      · rw [decide_eq_true hnear, Bool.true_and, decide_eq_true rfl]
    · rw [decide_eq_false hnear]
      refine List.any_eq_false.mpr ?_
      intro pos hpos
      by_cases heq : e.1 = pos
      · subst heq
        rw [decide_eq_false hnear]
        simp
      · rw [decide_eq_false heq, Bool.and_false]
        simp
  rw [hany]

theorem remove_line_comments_nodup (d : Data) (pos : ℚ)
    (hc : (akeys d.comments).Nodup) :
    (akeys (d.remove_line pos).comments).Nodup := by
  unfold Data.remove_line dget
  rcases hcase : alookup pos d.comments with _ | c
  · simp only [hcase]
    have hmem : pos ∉ akeys d.comments := alookup_eq_none.mp hcase
    rw [if_neg (fun h => h rfl : ¬("" : String) ≠ "")]
    simp only [akeys, List.map_append, List.map_cons, List.map_nil]
    rw [List.nodup_append]
    exact ⟨hc, List.nodup_singleton pos,
      by intro a ha hb; simp at hb; subst hb; exact hmem ha⟩
  · simp only [hcase]
    by_cases hne : c = ""
    · rw [if_neg (fun h => h hne : ¬c ≠ "")]
      exact hc
    · rw [if_pos hne]
      exact akeys_nodup_aerase pos hc

theorem remove_line_comments_lookup_ne (d : Data) (pos q : ℚ)
    (hne : q ≠ pos) :
    alookup q (d.remove_line pos).comments = alookup q d.comments := by
  unfold Data.remove_line dget
  rcases hcase : alookup pos d.comments with _ | c
  · simp only [hcase]
    rw [if_neg (fun h => h rfl : ¬("" : String) ≠ "")]
    exact alookup_append_ne "" d.comments hne
  · simp only [hcase]
    by_cases h : c = ""
    · rw [if_neg (fun h' => h' h : ¬c ≠ "")]
    · rw [if_pos h]
      exact alookup_aerase_ne d.comments hne

theorem dl_fold_comments_ne (M : ℚ) (q : ℚ) (ps : List ℚ)
    (hq : ∀ p ∈ ps, p ≠ q) :
    ∀ acc : Data × Bool,
      alookup q ((ps.foldl (fun acc pos =>
          if pyAbs (pos - M) < 1/10 then (acc.1.remove_line pos, true)
          else acc) acc).1).comments = alookup q acc.1.comments := by
  induction ps with
  | nil => intro acc; rfl
  | cons p rest ih =>
    intro acc
    have hp : p ≠ q := hq p (List.mem_cons_self p rest)
    have hrest : ∀ p' ∈ rest, p' ≠ q := fun p' h' =>
      hq p' (List.mem_cons_of_mem p h')
    rw [List.foldl_cons]
    by_cases h : pyAbs (p - M) < 1/10
    · rw [if_pos h, ih hrest]
      exact remove_line_comments_lookup_ne acc.1 p q (Ne.symm hp)
    · rw [if_neg h]
      exact ih hrest acc

theorem dl_fold_comments_nodup (M : ℚ) (ps : List ℚ) :
    ∀ acc : Data × Bool, (akeys acc.1.comments).Nodup →
      (akeys ((ps.foldl (fun acc pos =>
          if pyAbs (pos - M) < 1/10 then (acc.1.remove_line pos, true)
          else acc) acc).1).comments).Nodup := by
  induction ps with
  | nil => intro acc h; exact h
  | cons p rest ih =>
    intro acc h
    rw [List.foldl_cons]
    by_cases hp : pyAbs (p - M) < 1/10
    · rw [if_pos hp]
      exact ih _ (remove_line_comments_nodup acc.1 p h)
    · rw [if_neg hp]
      exact ih acc h

theorem dl_fold_removes_comment (M : ℚ) (q : ℚ)
    (hnear : pyAbs (q - M) < 1/10) :
    ∀ (ps : List ℚ) (acc : Data × Bool), ps.Nodup → q ∈ ps →
      (∃ c, alookup q acc.1.comments = some c ∧ c ≠ "") →
      (akeys acc.1.comments).Nodup →
      alookup q ((ps.foldl (fun acc pos =>
          if pyAbs (pos - M) < 1/10 then (acc.1.remove_line pos, true)
          else acc) acc).1).comments = none := by
  intro ps
  induction ps with
  | nil => intro acc _ hq; simp at hq
  | cons p rest ih =>
    intro acc hnd hq hsome hcnd
    have hndrest : rest.Nodup := (List.nodup_cons.mp hnd).2
    rw [List.foldl_cons]
    by_cases hmem : q ∈ rest
    · have hp : p ≠ q := by
        intro h
        exact (List.nodup_cons.mp hnd).1 (h ▸ hmem)
      by_cases hnearp : pyAbs (p - M) < 1/10
      · rw [if_pos hnearp]
        refine ih _ hndrest hmem ?_ ?_
        · rcases hsome with ⟨c, hcl, hcne⟩
          exact ⟨c, by
            rw [remove_line_comments_lookup_ne acc.1 p q (Ne.symm hp)]
            exact hcl, hcne⟩
        · exact remove_line_comments_nodup acc.1 p hcnd
      · rw [if_neg hnearp]
        exact ih acc hndrest hmem hsome hcnd
    · have hpq : q = p := by
        rcases List.mem_cons.mp hq with h | h
        · exact h
        · exact absurd h hmem
      subst hpq
      rw [if_pos hnear]
      have hrest : ∀ p' ∈ rest, p' ≠ q := fun p' h' heq =>
        hmem (heq ▸ h')
      rw [dl_fold_comments_ne M q rest hrest]
      rcases hsome with ⟨c, hcl, hcne⟩
      show alookup q (acc.1.remove_line q).comments = none
      unfold Data.remove_line dget
      simp only [hcl]
      rw [if_pos hcne]
      exact alookup_aerase_self q hcnd

theorem dl_fold_noop (M : ℚ) (ps : List ℚ)
    (h : ∀ p ∈ ps, ¬ pyAbs (p - M) < 1/10) (d : Data) :
    ps.foldl (fun acc pos =>
        if pyAbs (pos - M) < 1/10 then (acc.1.remove_line pos, true)
        else acc) (d, false) = (d, false) := by
  induction ps with
  | nil => rfl
  | cons p rest ih =>
    rw [List.foldl_cons, if_neg (h p (List.mem_cons_self p rest))]
    exact ih fun p' h' => h p' (List.mem_cons_of_mem p h')

/-- Claim C5: the deletion operation removes every stored entry within 0.1
of the probe (not just the first), is a no-op on the data when nothing is
within 0.1, and removes the attached (nonempty) comment of every removed
entry, leaving no comment entry at that position. -/
theorem aspas_c5_remove_near (d : Data) (M : ℚ)
    (hl : (akeys d.emission_lines).Nodup)
    (hc : (akeys d.comments).Nodup) :
    (comparator_delete_line d M).1.emission_lines =
      d.emission_lines.filter (fun e => ! decide (|e.1 - M| < 1/10)) ∧
    ((∀ q ∈ d.get_positions, ¬ |q - M| < 1/10) →
      comparator_delete_line d M = (d, false)) ∧
    (∀ q ∈ d.get_positions, |q - M| < 1/10 →
      ∀ c, alookup q d.comments = some c → c ≠ "" →
        alookup q (comparator_delete_line d M).1.comments = none) := by
  refine ⟨?_, ?_, ?_⟩
  · rw [dl_lines_filter d M hl]
    apply List.filter_congr
    intro e _
    rw [pyAbs_eq_abs]
  · intro h
    apply dl_fold_noop
    intro p hp
    rw [pyAbs_eq_abs]
    exact h p hp
  · intro q hq hnear c hcl hcne
    rw [← pyAbs_eq_abs] at hnear
    exact dl_fold_removes_comment M q hnear d.get_positions (d, false)
      (hl : d.get_positions.Nodup) hq ⟨c, hcl, hcne⟩ hc

theorem aspas_c5_witness :
    ((akeys ([(1, 2), (3, 4)] : List (ℚ × ℚ))).Nodup ∧
     (akeys ([(1, "x")] : List (ℚ × String))).Nodup ∧
     |(1 : ℚ) - 105/100| < 1/10) ∧
    (comparator_delete_line
        { plate_resolution := (100 : ℚ), plate_offset := 0,
          emission_lines := [(1, 2), (3, 4)], comments := [(1, "x")] }
        (105/100)).1.emission_lines =
      List.filter (fun e => ! decide (|e.1 - 105/100| < 1/10))
        ([(1, 2), (3, 4)] : List (ℚ × ℚ)) ∧
    alookup 1 (comparator_delete_line
        { plate_resolution := (100 : ℚ), plate_offset := 0,
          emission_lines := [(1, 2), (3, 4)], comments := [(1, "x")] }
        (105/100)).1.comments = none := by
  have hl : (akeys ([(1, 2), (3, 4)] : List (ℚ × ℚ))).Nodup := by
    simp [akeys]
  have hc : (akeys ([(1, "x")] : List (ℚ × String))).Nodup := by
    simp [akeys]
  have hnear : |(1 : ℚ) - 105/100| < 1/10 := by
    rw [abs_sub_lt_iff]; constructor <;> norm_num
  have h := aspas_c5_remove_near
    { plate_resolution := (100 : ℚ), plate_offset := 0,
      emission_lines := [(1, 2), (3, 4)], comments := [(1, "x")] }
    (105/100) hl hc
  exact ⟨⟨hl, hc, hnear⟩, h.1,
    h.2.2 1 (by simp [Data.get_positions, akeys]) hnear "x" rfl
      (by simp)⟩

/-- Claim C2 counterexample: `load_lines` clears both stores before
opening and parsing the file, so a load that fails on an unparsable header
leaves the store emptied, not unchanged: starting from a store holding one
line, loading a one-line garbage file fails and the prior entry is gone. -/
theorem aspas_c2_counterexample :
    Data.load_lines
        { plate_resolution := (100 : ℚ), plate_offset := 0,
          emission_lines := [(5, 1)], comments := [] }
        (some [[Tok.word "bad"]]) =
      LoadOutcome.err
        { plate_resolution := (100 : ℚ), plate_offset := 0,
          emission_lines := [], comments := [] } ∧
    ([] : List (ℚ × ℚ)) ≠ [(5, 1)] := by
  exact ⟨rfl, by simp⟩

/-- Claim C2 amended: `load_lines` is not atomic — it discards the prior
emission lines and comments before parsing, so its entire outcome
(including the state surviving a failure) depends on the prior state only
through the two calibration scalars; and a successful load replaces the
whole state with the parsed contents, independently of every part of the
prior state. -/
theorem aspas_c2_amended :
    (∀ (d1 d2 : Data) (file : Option (List (List Tok))),
      d1.plate_resolution = d2.plate_resolution →
      d1.plate_offset = d2.plate_offset →
      Data.load_lines d1 file = Data.load_lines d2 file) ∧
    (∀ (d1 d2 : Data) (file : Option (List (List Tok))) (d' : Data),
      Data.load_lines d1 file = LoadOutcome.ok d' →
      Data.load_lines d2 file = LoadOutcome.ok d') := by
  constructor
  · intro d1 d2 file h1 h2
    obtain ⟨r1, o1, l1, c1⟩ := d1
    obtain ⟨r2, o2, l2, c2⟩ := d2
    have hr : r1 = r2 := h1
    have ho : o1 = o2 := h2
    subst hr; subst ho
    rfl
  · intro d1 d2 file d' h
    obtain ⟨r1, o1, l1, c1⟩ := d1
    obtain ⟨r2, o2, l2, c2⟩ := d2
    cases file with
    | none => simp [Data.load_lines] at h
    | some ls =>
      simp only [Data.load_lines] at h ⊢
      rcases hr : numAt ls 0 2 with _ | r
      · rw [hr] at h
        exact LoadOutcome.noConfusion h
      · rw [hr] at h
        rcases hoff : numAt ls 1 2 with _ | o
        · rw [hoff] at h
          exact LoadOutcome.noConfusion h
        · rw [hoff] at h
          exact h

theorem aspas_c2_amended_witness :
    Data.load_lines
        { plate_resolution := (100 : ℚ), plate_offset := 0,
          emission_lines := [(5, 1)], comments := [] }
        (some [[Tok.word "bad"]]) =
      Data.load_lines
        { plate_resolution := (100 : ℚ), plate_offset := 0,
          emission_lines := [], comments := [(7, "z")] }
        (some [[Tok.word "bad"]]) :=
  aspas_c2_amended.1
    { plate_resolution := (100 : ℚ), plate_offset := 0,
      emission_lines := [(5, 1)], comments := [] }
    { plate_resolution := (100 : ℚ), plate_offset := 0,
      emission_lines := [], comments := [(7, "z")] }
    (some [[Tok.word "bad"]]) rfl rfl

/-- Claim C7: loading converts each on-disk physical position to the pixel
position `(physical - offset) * resolution` using the offset and
resolution read from the same file's header (the caller's calibration is
irrelevant: the result below does not depend on `d`), and a row with a
missing comment token loads as an entry with empty comment, not an
error. -/
theorem aspas_c7_load_conversion (d : Data) (r o P1 I1 P2 I2 : ℚ)
    (c : String) (hne : (P1 - o) * r ≠ (P2 - o) * r) :
    Data.load_lines d (some
      [[Tok.word "Plate", Tok.word "Resolution:", Tok.num r,
        Tok.word "px/mm"],
       [Tok.word "Plate", Tok.word "Offset:", Tok.num o, Tok.word "mm"],
       [Tok.word "Position", Tok.word "|", Tok.word "Intensity",
        Tok.word "|", Tok.word "Comments"],
       [Tok.num P1, Tok.num I1],
       [Tok.num P2, Tok.num I2, Tok.word c]]) =
    LoadOutcome.ok
      { plate_resolution := r, plate_offset := o,
        emission_lines := [((P1 - o) * r, I1), ((P2 - o) * r, I2)],
        comments := [((P1 - o) * r, ""), ((P2 - o) * r, c)] } := by
  obtain ⟨r0, o0, l0, c0⟩ := d
  have e1 : aset ((P2 - o) * r) I2 [((P1 - o) * r, I1)] =
      [((P1 - o) * r, I1), ((P2 - o) * r, I2)] := by
    simp [aset, Ne.symm hne]
  have e2 : aset ((P2 - o) * r) c [((P1 - o) * r, "")] =
      [((P1 - o) * r, ""), ((P2 - o) * r, c)] := by
    simp [aset, Ne.symm hne]
  show LoadOutcome.ok
      { plate_resolution := r, plate_offset := o,
        emission_lines := aset ((P2 - o) * r) I2 [((P1 - o) * r, I1)],
        comments := aset ((P2 - o) * r) c [((P1 - o) * r, "")] } = _
  rw [e1, e2]

theorem aspas_c7_witness :
    ((3 : ℚ) - 1) * 10 ≠ ((5 : ℚ) - 1) * 10 ∧
    Data.load_lines Data.init (some
      [[Tok.word "Plate", Tok.word "Resolution:", Tok.num 10,
        Tok.word "px/mm"],
       [Tok.word "Plate", Tok.word "Offset:", Tok.num 1, Tok.word "mm"],
       [Tok.word "Position", Tok.word "|", Tok.word "Intensity",
        Tok.word "|", Tok.word "Comments"],
       [Tok.num 3, Tok.num 128],
       [Tok.num 5, Tok.num 64, Tok.word "faint"]]) =
    LoadOutcome.ok
      { plate_resolution := 10, plate_offset := 1,
        emission_lines := [(((3 : ℚ) - 1) * 10, 128),
          (((5 : ℚ) - 1) * 10, 64)],
        comments := [(((3 : ℚ) - 1) * 10, ""),
          (((5 : ℚ) - 1) * 10, "faint")] } :=
  ⟨by norm_num,
   aspas_c7_load_conversion Data.init 10 1 3 128 5 64 "faint"
     (by norm_num)⟩

/-- Claim C4 counterexample: a decodable 3-channel image of width 2 and
height 1. The axis-reversing `np.transpose` makes the scan loop iterate
over channels, so three samples are produced instead of two, and the
interpolant construction then fails on the length mismatch — pixel values
are never channel-averaged. -/
theorem aspas_c4_counterexample :
    pilWidth (Img.multi [[[0, 0, 0], [6, 6, 6]]]) = 2 ∧
    (scan_samples (Img.multi [[[0, 0, 0], [6, 6, 6]]])).length = 3 ∧
    scan_plate (some (Img.multi [[[0, 0, 0], [6, 6, 6]]])) =
      Except.error ScanErr.lengthMismatch :=
  ⟨rfl, rfl, rfl⟩

/-- Claim C4 amended: for a single-channel image of height at least 1 the
extractor produces exactly `W` samples with
`samples[i] = 256 - mean(column i)`; for a multi-channel image the code
does not channel-average: the reversed transpose yields one value per
channel (each `256 - mean` of that entire channel), so the sample count is
the channel count, not the width. -/
theorem aspas_c4_amended :
    (∀ (rows : List (List ℚ)) (W : ℕ), rows ≠ [] →
      (∀ row ∈ rows, row.length = W) →
      (scan_samples (Img.gray rows)).length = W ∧
      ∀ i, i < W → (scan_samples (Img.gray rows)).getD i 0 =
        256 - mean (rows.map fun row => row.getD i 0)) ∧
    (∀ a : List (List (List ℚ)),
      (scan_samples (Img.multi a)).length =
        ((a.headD []).headD []).length) := by
  constructor
  · intro rows W hne hrect
    have hhead : (rows.head?.getD []).length = W := by
      cases rows with
      | nil => exact absurd rfl hne
      | cons r rs => exact hrect r (List.mem_cons_self r rs)
    constructor
    · simp [scan_samples, transpose2, hhead]
    · intro i hi
      simp [scan_samples, transpose2, hhead, List.getD_eq_getElem?_getD,
        List.getElem?_map, List.getElem?_range hi]
  · intro a
    simp [scan_samples, transpose3]

theorem aspas_c4_amended_witness :
    (([[1, 2], [3, 4]] : List (List ℚ)) ≠ [] ∧
     (∀ row ∈ ([[1, 2], [3, 4]] : List (List ℚ)), row.length = 2)) ∧
    (scan_samples (Img.gray [[1, 2], [3, 4]])).length = 2 ∧
    (scan_samples (Img.gray [[1, 2], [3, 4]])).getD 1 0 =
      256 - mean (([[1, 2], [3, 4]] : List (List ℚ)).map
        fun row => row.getD 1 0) := by
  have hrect : ∀ row ∈ ([[1, 2], [3, 4]] : List (List ℚ)),
      row.length = 2 := by
    simp [List.forall_mem_cons]
  have h := aspas_c4_amended.1 [[1, 2], [3, 4]] 2 (by simp) hrect
  exact ⟨⟨by simp, hrect⟩, h.1, h.2 1 (by omega)⟩

/-! ### Round-trip machinery (claim C3) -/

theorem dget_mem {α : Type} {k : ℚ} {m : List (ℚ × α)} {v : α}
    (dflt : α) (h : alookup k m = some v) : dget k dflt m = (v, m) := by
  unfold dget
  rw [h]

/-- The rows written by the save loop, in terms of the original stores:
each position's row carries the 4-decimal physical position, the 3-decimal
intensity, and the comment token when the comment is nonempty. The lines
store is returned unchanged (every scanned position is a key), while the
comments store may grow by default insertions that never change the value
observed for a later distinct position. -/
theorem saveRows_spec (res off : ℚ) :
    ∀ (ps : List ℚ) (L : List (ℚ × ℚ)) (C C₀ : List (ℚ × String)),
      ps.Nodup → (∀ p ∈ ps, p ∈ akeys L) →
      (∀ p ∈ ps, alookup p C = alookup p C₀) →
      (saveRows res off ps L C).1 =
        ps.map (fun p =>
          [Tok.num (roundTo 4 (p / res + off)),
           Tok.num (roundTo 3 ((alookup p L).getD 0))] ++
          (if (alookup p C₀).getD "" = "" then []
           else [Tok.word ((alookup p C₀).getD "")])) ∧
      (saveRows res off ps L C).2.1 = L := by
  intro ps
  induction ps with
  | nil => intro L C C₀ _ _ _; exact ⟨rfl, rfl⟩
  | cons p rest ih =>
    intro L C C₀ hnd hkeys hCC
    have hndrest : rest.Nodup := (List.nodup_cons.mp hnd).2
    have hnmem : p ∉ rest := (List.nodup_cons.mp hnd).1
    rcases alookup_isSome (hkeys p (List.mem_cons_self p rest)) with
      ⟨v, hv⟩
    have hCp : alookup p C = alookup p C₀ :=
      hCC p (List.mem_cons_self p rest)
    have hkrest : ∀ p' ∈ rest, p' ∈ akeys L := fun p' h' =>
      hkeys p' (List.mem_cons_of_mem p h')
    simp only [saveRows, dget_mem 0 hv]
    rcases hc : alookup p C with _ | cval
    · have hC0 : alookup p C₀ = none := hCp.symm.trans hc
      have hCC' : ∀ p' ∈ rest, alookup p' (C ++ [(p, "")]) =
          alookup p' C₀ := by
        intro p' h'
        have hne : p' ≠ p := fun heq => hnmem (heq ▸ h')
        rw [alookup_append_ne "" C hne]
        exact hCC p' (List.mem_cons_of_mem p h')
      have hrec := ih L (C ++ [(p, "")]) C₀ hndrest hkrest hCC'
      simp only [dget, hc]
      rw [List.map_cons]
      refine ⟨?_, hrec.2⟩
      rw [hrec.1]
      simp [hv, hC0]
    · have hC0 : alookup p C₀ = some cval := hCp.symm.trans hc
      have hrec := ih L C C₀ hndrest hkrest
        (fun p' h' => hCC p' (List.mem_cons_of_mem p h'))
      simp only [dget, hc]
      rw [List.map_cons]
      refine ⟨?_, hrec.2⟩
      rw [hrec.1]
      simp [hv, hC0]

theorem alookup_map_of_inj (key : ℚ → ℚ) {α : Type} (g : ℚ → α) :
    ∀ (ps : List ℚ) (p : ℚ), p ∈ ps →
      (∀ x ∈ ps, ∀ y ∈ ps, key x = key y → x = y) →
      alookup (key p) (ps.map fun x => (key x, g x)) = some (g p) := by
  intro ps
  induction ps with
  | nil => intro p hp; simp at hp
  | cons p₀ rest ih =>
    intro p hp hinj
    rw [List.map_cons]
    by_cases heq : key p = key p₀
    · have hpp : p = p₀ := hinj p hp p₀ (List.mem_cons_self p₀ rest) heq
      subst hpp
      simp [alookup]
    · have hne : p ≠ p₀ := fun h => heq (h ▸ rfl)
      have hrest : p ∈ rest := by
        rcases List.mem_cons.mp hp with h | h
        · exact absurd h hne
        · exact h
      simp only [alookup, heq, if_false]
      exact ih p hrest fun x hx y hy =>
        hinj x (List.mem_cons_of_mem p₀ hx) y (List.mem_cons_of_mem p₀ hy)

/-- The pixel position reconstructed by a save/load round trip: the
4-decimal physical position written by `save_lines`, converted back by
`load_lines` with the calibration read from the file (offset verbatim,
resolution rounded to 3 decimals by the header format). -/
def pixAfter (d : Data) (p : ℚ) : ℚ :=
  (roundTo 4 (p / d.plate_resolution + d.plate_offset) -
      d.plate_offset) * roundTo 3 d.plate_resolution

/-- One step of the row loop on a well-formed row, by definitional
unfolding: both tokens parse, and both stores are assigned at the
converted pixel position. -/
theorem loadRows_cons_step (d : Data) (x y : ℚ) (tail : List Tok)
    (rows : List (List Tok)) :
    loadRows d (([Tok.num x, Tok.num y] ++ tail) :: rows) =
      loadRows
        { d with
          emission_lines :=
            aset ((x - d.plate_offset) * d.plate_resolution) y
              d.emission_lines,
          comments :=
            aset ((x - d.plate_offset) * d.plate_resolution)
              (match tail.get? 0 with
                | some t => tokStr t
                | none => "") d.comments } rows := rfl

/-- `loadRows` over well-formed rows with pairwise-distinct, fresh keys:
every row parses, and both stores grow by exactly the listed entries. -/
theorem loadRows_map (a b : ℚ → ℚ) (c : ℚ → String) :
    ∀ (ps : List ℚ) (d : Data),
      (ps.map fun p =>
        (a p - d.plate_offset) * d.plate_resolution).Nodup →
      (∀ p ∈ ps, (a p - d.plate_offset) * d.plate_resolution ∉
        akeys d.emission_lines) →
      (∀ p ∈ ps, (a p - d.plate_offset) * d.plate_resolution ∉
        akeys d.comments) →
      loadRows d (ps.map fun p =>
        [Tok.num (a p), Tok.num (b p)] ++
        (if c p = "" then [] else [Tok.word (c p)])) =
      LoadOutcome.ok
        { d with
          emission_lines := d.emission_lines ++ ps.map fun p =>
            ((a p - d.plate_offset) * d.plate_resolution, b p),
          comments := d.comments ++ ps.map fun p =>
            ((a p - d.plate_offset) * d.plate_resolution, c p) } := by
  intro ps
  induction ps with
  | nil => intro d _ _ _; simp [loadRows]
  | cons p rest ih =>
    intro d hnodup hfL hfC
    have hkL : alookup ((a p - d.plate_offset) * d.plate_resolution)
        d.emission_lines = none :=
      alookup_eq_none.mpr (hfL p (List.mem_cons_self p rest))
    have hkC : alookup ((a p - d.plate_offset) * d.plate_resolution)
        d.comments = none :=
      alookup_eq_none.mpr (hfC p (List.mem_cons_self p rest))
    rw [List.map_cons] at hnodup
    have hheadne : ∀ p' ∈ rest,
        (a p' - d.plate_offset) * d.plate_resolution ≠
          (a p - d.plate_offset) * d.plate_resolution := by
      intro p' h' heq
      exact (List.nodup_cons.mp hnodup).1
        (heq ▸ List.mem_map_of_mem _ h')
    rw [List.map_cons, loadRows_cons_step]
    have hcmt : (match
        (if c p = "" then [] else [Tok.word (c p)]).get? 0 with
        | some t => tokStr t
        | none => "") = c p := by
      by_cases hcp : c p = ""
      · rw [if_pos hcp]
        exact hcp.symm
      · rw [if_neg hcp]
        rfl
    rw [hcmt, aset_eq_append _ hkL, aset_eq_append _ hkC]
    rw [ih
      { d with
        emission_lines := d.emission_lines ++
          [((a p - d.plate_offset) * d.plate_resolution, b p)],
        comments := d.comments ++
          [((a p - d.plate_offset) * d.plate_resolution, c p)] }
      (by simpa using (List.nodup_cons.mp hnodup).2)
      (by
        intro p' h'
        show (a p' - d.plate_offset) * d.plate_resolution ∉
          akeys (d.emission_lines ++
            [((a p - d.plate_offset) * d.plate_resolution, b p)])
        simp only [akeys, List.map_append, List.map_cons, List.map_nil]
        rw [List.mem_append]
        push_neg
        exact ⟨hfL p' (List.mem_cons_of_mem p h'),
          by simpa using hheadne p' h'⟩)
      (by
        intro p' h'
        show (a p' - d.plate_offset) * d.plate_resolution ∉
          akeys (d.comments ++
            [((a p - d.plate_offset) * d.plate_resolution, c p)])
        simp only [akeys, List.map_append, List.map_cons, List.map_nil]
        rw [List.mem_append]
        push_neg
        exact ⟨hfC p' (List.mem_cons_of_mem p h'),
          by simpa using hheadne p' h'⟩)]
    simp [List.append_assoc]

/-- Loading a saved file always parses the header back into the rounded
resolution and the verbatim offset, then proceeds to the rows. -/
theorem load_save_step (base d : Data) (rows : List (List Tok)) :
    Data.load_lines base (some (headerLines d ++ rows)) =
      loadRows
        { plate_resolution := roundTo 3 d.plate_resolution,
          plate_offset := d.plate_offset,
          emission_lines := [], comments := [] } rows := by
  obtain ⟨br, bo, bl, bc⟩ := base
  rfl

/-- Claim C3: save/load round trip. For a store with nonzero calibration,
distinct stored keys, and no collision of rounded physical positions,
loading the saved file succeeds and reconstructs the state up to the
declared rounding: the resolution to 3 decimals, the offset verbatim, and
one entry per stored position whose physical position under the loaded
calibration is the original physical position rounded to 4 decimals,
whose intensity is rounded to 3 decimals, and whose comment is preserved
(empty when absent); no other entries appear. -/
theorem aspas_c3_roundtrip (d base : Data)
    (hres : d.plate_resolution ≠ 0)
    (hres3 : roundTo 3 d.plate_resolution ≠ 0)
    (hnd : (akeys d.emission_lines).Nodup)
    (hinj : ∀ p ∈ akeys d.emission_lines, ∀ p' ∈ akeys d.emission_lines,
      pixAfter d p = pixAfter d p' → p = p') :
    Data.load_lines base (some (d.save_lines).1) =
      LoadOutcome.ok
        { plate_resolution := roundTo 3 d.plate_resolution,
          plate_offset := d.plate_offset,
          emission_lines :=
            (d.get_positions.mergeSort fun x y => decide (x ≤ y)).map
              fun p => (pixAfter d p,
                roundTo 3 ((alookup p d.emission_lines).getD 0)),
          comments :=
            (d.get_positions.mergeSort fun x y => decide (x ≤ y)).map
              fun p => (pixAfter d p, (alookup p d.comments).getD "") } ∧
    (∀ p ∈ akeys d.emission_lines,
      alookup (pixAfter d p)
          ((d.get_positions.mergeSort fun x y => decide (x ≤ y)).map
            fun p => (pixAfter d p,
              roundTo 3 ((alookup p d.emission_lines).getD 0))) =
        some (roundTo 3 ((alookup p d.emission_lines).getD 0)) ∧
      alookup (pixAfter d p)
          ((d.get_positions.mergeSort fun x y => decide (x ≤ y)).map
            fun p => (pixAfter d p, (alookup p d.comments).getD "")) =
        some ((alookup p d.comments).getD "") ∧
      pixAfter d p / roundTo 3 d.plate_resolution + d.plate_offset =
        roundTo 4 (p / d.plate_resolution + d.plate_offset)) ∧
    (∀ q ∈ akeys
        ((d.get_positions.mergeSort fun x y => decide (x ≤ y)).map
          fun p => (pixAfter d p,
            roundTo 3 ((alookup p d.emission_lines).getD 0))),
      ∃ p ∈ akeys d.emission_lines, q = pixAfter d p) := by
  have hperm := List.mergeSort_perm d.get_positions
    fun x y => decide (x ≤ y)
  have hsortnd :
      (d.get_positions.mergeSort fun x y => decide (x ≤ y)).Nodup :=
    hperm.nodup_iff.mpr hnd
  have hmem : ∀ p,
      p ∈ (d.get_positions.mergeSort fun x y => decide (x ≤ y)) ↔
        p ∈ akeys d.emission_lines := fun p => hperm.mem_iff
  have hinj' : ∀ x ∈ (d.get_positions.mergeSort fun x y =>
        decide (x ≤ y)),
      ∀ y ∈ (d.get_positions.mergeSort fun x y => decide (x ≤ y)),
        pixAfter d x = pixAfter d y → x = y := fun x hx y hy h =>
    hinj x ((hmem x).mp hx) y ((hmem y).mp hy) h
  refine ⟨?_, ?_, ?_⟩
  · have hspec := saveRows_spec d.plate_resolution d.plate_offset
      (d.get_positions.mergeSort fun x y => decide (x ≤ y))
      d.emission_lines d.comments d.comments hsortnd
      (fun p hp => (hmem p).mp hp) (fun _ _ => rfl)
    have hsave : (d.save_lines).1 = headerLines d ++
        (d.get_positions.mergeSort fun x y => decide (x ≤ y)).map
          (fun p =>
            [Tok.num (roundTo 4 (p / d.plate_resolution +
                d.plate_offset)),
             Tok.num (roundTo 3 ((alookup p d.emission_lines).getD 0))] ++
            (if (alookup p d.comments).getD "" = "" then []
             else [Tok.word ((alookup p d.comments).getD "")])) := by
      show headerLines d ++
        (saveRows d.plate_resolution d.plate_offset
          (d.get_positions.mergeSort fun x y => decide (x ≤ y))
          d.emission_lines d.comments).1 = _
      rw [hspec.1]
    rw [hsave, load_save_step]
    have hkeynodup :
        ((d.get_positions.mergeSort fun x y => decide (x ≤ y)).map
          fun p => pixAfter d p).Nodup :=
      List.Nodup.map_on hinj' hsortnd
    rw [loadRows_map
      (fun p => roundTo 4 (p / d.plate_resolution + d.plate_offset))
      (fun p => roundTo 3 ((alookup p d.emission_lines).getD 0))
      (fun p => (alookup p d.comments).getD "")
      (d.get_positions.mergeSort fun x y => decide (x ≤ y))
      { plate_resolution := roundTo 3 d.plate_resolution,
        plate_offset := d.plate_offset,
        emission_lines := [], comments := [] }
      hkeynodup
      (by intro p' _; simp [akeys])
      (by intro p' _; simp [akeys])]
    simp [pixAfter]
  · intro p hp
    refine ⟨?_, ?_, ?_⟩
    · exact alookup_map_of_inj (pixAfter d) _ _ p ((hmem p).mpr hp) hinj'
    · exact alookup_map_of_inj (pixAfter d) _ _ p ((hmem p).mpr hp) hinj'
    · unfold pixAfter
      field_simp
  · intro q hq
    simp only [akeys, List.map_map, Function.comp] at hq
    rcases List.mem_map.mp hq with ⟨p, hp, hpq⟩
    exact ⟨p, (hmem p).mp hp, hpq.symm⟩

theorem aspas_c3_witness :
    ((100 : ℚ) ≠ 0 ∧ roundTo 3 (100 : ℚ) ≠ 0 ∧
      (akeys ([(505/10, 128)] : List (ℚ × ℚ))).Nodup) ∧
    Data.load_lines Data.init
        (some (Data.save_lines
          { plate_resolution := 100, plate_offset := 0,
            emission_lines := [(505/10, 128)], comments := [] }).1) =
      LoadOutcome.ok
        { plate_resolution := roundTo 3 (100 : ℚ),
          plate_offset := 0,
          emission_lines :=
            ((Data.get_positions
                { plate_resolution := 100, plate_offset := 0,
                  emission_lines := [(505/10, 128)],
                  comments := [] }).mergeSort
                fun x y => decide (x ≤ y)).map
              fun p => (pixAfter
                { plate_resolution := 100, plate_offset := 0,
                  emission_lines := [(505/10, 128)], comments := [] } p,
                roundTo 3
                  ((alookup p
                    ([(505/10, 128)] : List (ℚ × ℚ))).getD 0)),
          comments :=
            ((Data.get_positions
                { plate_resolution := 100, plate_offset := 0,
                  emission_lines := [(505/10, 128)],
                  comments := [] }).mergeSort
                fun x y => decide (x ≤ y)).map
              fun p => (pixAfter
                { plate_resolution := 100, plate_offset := 0,
                  emission_lines := [(505/10, 128)], comments := [] } p,
                (alookup p ([] : List (ℚ × String))).getD "") } := by
  have h1 : (100 : ℚ) ≠ 0 := by norm_num
  have h2 : roundTo 3 (100 : ℚ) ≠ 0 := by norm_num [roundTo, round_eq]
  have h3 : (akeys ([(505/10, 128)] : List (ℚ × ℚ))).Nodup := by
    simp [akeys]
  have h4 : ∀ p ∈ akeys ([(505/10, 128)] : List (ℚ × ℚ)),
      ∀ p' ∈ akeys ([(505/10, 128)] : List (ℚ × ℚ)),
      pixAfter
        { plate_resolution := 100, plate_offset := 0,
          emission_lines := [(505/10, 128)], comments := [] } p =
      pixAfter
        { plate_resolution := 100, plate_offset := 0,
          emission_lines := [(505/10, 128)], comments := [] } p' →
      p = p' := by
    intro p hp p' hp' _
    simp [akeys] at hp hp'
    rw [hp, hp']
  exact ⟨⟨h1, h2, h3⟩,
    (aspas_c3_roundtrip
      { plate_resolution := 100, plate_offset := 0,
        emission_lines := [(505/10, 128)], comments := [] }
      Data.init h1 h2 h3 h4).1⟩

end ASPAS
